import Mathlib

/-!
Verification of the soccer-tactics-guide retrieval core.

This file is a shallow embedding, in Lean 4, of the repository's two core
modules:

  * `crawl_thefalse9.py` — the bounded single-domain crawler and the
    HTML article extractor (`is_same_domain`, `extract_article_links`,
    `_normalize_classes`, `_extract_text_from_node`, `extract_article_text`,
    `crawl`);
  * `app/rag.py` — the embedding index (`load_index`,
    `_cosine_similarity`, `search_context`, `build_index_from_corpus`).

Modelling conventions:

  * Python floats are modelled as exact rationals (`ℚ`).  The library
    function `math.sqrt` is not rational-valued, so every definition that
    the source feeds through `math.sqrt` takes an explicit square-root
    function `sq : ℚ → ℚ` as a parameter; theorems assume only the exact
    values of `sq` that the statement needs (e.g. `sq 0 = 0`, `sq 1 = 1`),
    all of which hold for the real square root.  `ratSqrt` below is a
    computable instantiation that agrees with `math.sqrt` on the
    perfect squares used in concrete runs.
  * The external embedding service (`embed_text`) and the page fetcher
    (`requests.get` + BeautifulSoup parsing, `get_soup`) are modelled as
    explicit function parameters (`embed : String → List ℚ`,
    `env : String → Option Soup`); `env url = none` models a fetch that
    raises (network error or non-2xx status).
  * Parsed HTML documents (BeautifulSoup objects) are modelled by the
    mutual inductive `HNode`/`HForest` below; the BeautifulSoup
    operations the source uses (`find`, `find_all`, `select`, `get_text`,
    attribute access) are modelled as structural recursions over it.
  * JSON records persisted in the index file are modelled by `RawRecord`
    (absent-or-wrongly-typed fields are `none`).
  * `time.sleep`, logging via `print`, and the `lru_cache` memoisation of
    `load_index` (which is pure) have no observable effect on the values
    computed and are not modelled.
-/

/-! ### Character-level string primitives

Python's `str` operations (`in`, `strip`, `split`, `startswith`,
`endswith`) are modelled by structural recursions over the character
list of a `String`, so that every concrete run below evaluates inside
the kernel. -/

/-- `containsSub s pat`: `pat` occurs as a contiguous sublist of `s`. -/
def containsSub (pat : List Char) : List Char → Bool
  | [] => pat.isEmpty
  | x :: xs => pat.isPrefixOf (x :: xs) || containsSub pat xs

/-- Substring test: `strContains s pat` models Python's `pat in s`. -/
def strContains (s pat : String) : Bool :=
  containsSub pat.data s.data

/-- Both-ends whitespace trim on a character list. -/
def trimChars (cs : List Char) : List Char :=
  ((cs.dropWhile Char.isWhitespace).reverse.dropWhile Char.isWhitespace).reverse

/-- Python's `str.strip()`. -/
def strTrim (s : String) : String :=
  String.mk (trimChars s.data)

/-- Python's `str.startswith`. -/
def strStarts (s pat : String) : Bool :=
  pat.data.isPrefixOf s.data

/-- Python's `str.endswith`. -/
def strEnds (s pat : String) : Bool :=
  pat.data.isSuffixOf s.data

/-- The suffix of `s` strictly after the first occurrence of `pat`,
or `none` when `pat` does not occur in `s` (`pat` is non-empty in every
use below). -/
def dropAfterSub (pat : List Char) : List Char → Option (List Char)
  | [] => if pat.isEmpty then some [] else none
  | x :: xs =>
    if pat.isPrefixOf (x :: xs) then some ((x :: xs).drop pat.length)
    else dropAfterSub pat xs

/-- The prefix of `s` strictly before the first occurrence of `pat`
(all of `s` when `pat` does not occur). -/
def takeUntilSub (pat : List Char) : List Char → List Char
  | [] => []
  | x :: xs => if pat.isPrefixOf (x :: xs) then [] else x :: takeUntilSub pat xs

/-- Split a character list at every character satisfying `p`
(Python's `str.split` keeps no separators; empty pieces are produced
here and filtered by the callers that need Python's no-empty-pieces
behaviour). -/
def splitOnPred (p : Char → Bool) : List Char → List (List Char)
  | [] => [[]]
  | x :: xs =>
    match splitOnPred p xs with
    | [] => [[]]
    | g :: gs => if p x then [] :: g :: gs else (x :: g) :: gs

/-! ### URL handling (`urllib.parse`, modelled from the Python stdlib)

`urlparse`/`urljoin` are standard-library collaborators of
`crawl_thefalse9.py`, not code of this repository; they are modelled here
from their documented behaviour for the URL shapes the crawler encounters
(absolute `scheme://host/path` URLs, host-relative `/path` references and
plain relative references; query/fragment splitting is not needed by any
claim and is omitted). -/

/-- Modelled from the Python stdlib: the `netloc` component of
`urllib.parse.urlparse` — the host part between `"://"` and the next
`"/"`; empty when the URL has no `"://"`. -/
def netloc (url : String) : String :=
  match dropAfterSub "://".data url.data with
  | some rest => String.mk (rest.takeWhile (fun c => c ≠ '/'))
  | none => ""

/-- Source: `crawl_thefalse9.is_same_domain` (lines 35-37):
`urlparse(url).netloc.endswith("thefalse9.com")`. -/
def is_same_domain (url : String) : Bool :=
  strEnds (netloc url) "thefalse9.com"

/-- The scheme of a URL (the part before `"://"`), defaulting to `"https"`. -/
def urlScheme (url : String) : String :=
  if strContains url "://" then String.mk (takeUntilSub "://".data url.data)
  else "https"

/-- The path part of a URL (everything after the netloc). -/
def urlPath (url : String) : String :=
  match dropAfterSub "://".data url.data with
  | some rest => String.mk (rest.dropWhile (fun c => c ≠ '/'))
  | none => url

/-- Modelled from the Python stdlib: `urllib.parse.urljoin base url` —
an absolute reference is returned unchanged; a scheme-relative `//…`
reference takes the base's scheme; a host-relative `/…` reference is
resolved against the base's scheme and host; any other reference is
resolved against the base's directory (the base path up to its last
`/`). -/
def urljoin (base url : String) : String :=
  if strContains url "://" then url
  else if url = "" then base
  else if strStarts url "//" then urlScheme base ++ ":" ++ url
  else if strStarts url "/" then urlScheme base ++ "://" ++ netloc base ++ url
  else
    let segs := (splitOnPred (fun c => c = '/') (urlPath base).data).map String.mk
    let dir := String.intercalate "/" segs.dropLast
    urlScheme base ++ "://" ++ netloc base ++ dir ++ "/" ++ url

/-- Source: `crawl_thefalse9.BASE_URL`. -/
def BASE_URL : String := "https://thefalse9.com"

/-- Source: `crawl_thefalse9.MAX_PAGES`. -/
def MAX_PAGES : Nat := 200

/-! ### Parsed HTML documents (BeautifulSoup model) -/

mutual
/-- A parsed HTML node: an element with a tag, attributes and children,
or a text node.  The `class` attribute is stored as its literal source
string (as serialised in the HTML). -/
inductive HNode where
  | elem (tag : String) (attrs : List (String × String)) (children : HForest)
  | text (s : String)
/-- A list of sibling HTML nodes (a separate inductive so that all
traversals below are plain structural recursions). -/
inductive HForest where
  | nil
  | cons (head : HNode) (tail : HForest)
end

/-- A parsed document (BeautifulSoup object): the forest of top-level nodes. -/
abbrev Soup := HForest

/-- Build an `HForest` from a list literal. -/
def HForest.ofList : List HNode → HForest
  | [] => .nil
  | n :: ns => .cons n (HForest.ofList ns)

/-- The attributes of a node (empty for a text node). -/
def HNode.attrsOf : HNode → List (String × String)
  | .elem _ attrs _ => attrs
  | .text _ => []

/-- Attribute lookup, modelling `tag.get(key)` / `tag[key]`:
the first attribute with the given name. -/
def getAttr (attrs : List (String × String)) (key : String) : Option String :=
  (attrs.find? (fun kv => kv.1 = key)).map (fun kv => kv.2)

mutual
/-- All text-node strings below a node, in document order
(BeautifulSoup's `strings` of the node, used by `get_text`). -/
def nodeTexts : HNode → List String
  | .text s => [s]
  | .elem _ _ cs => forestTexts cs
def forestTexts : HForest → List String
  | .nil => []
  | .cons c cs => nodeTexts c ++ forestTexts cs
end

/-- `node.get_text(sep, strip=True)`: each descendant string is stripped,
whitespace-only strings are dropped, and the rest are joined with `sep`. -/
def getText (sep : String) (n : HNode) : String :=
  String.intercalate sep (((nodeTexts n).map strTrim).filter (fun s => s ≠ ""))

mutual
/-- All element nodes matching a tag/attribute predicate, in document
(preorder) order, each paired with its path of child indices from the
root.  The path plays the role of CPython's `id(node)`: two nodes in one
document are the same object exactly when their paths are equal. -/
def selectNode (p : String → List (String × String) → Bool) (path : List Nat) :
    HNode → List (List Nat × HNode)
  | .text _ => []
  | .elem tag attrs cs =>
    (if p tag attrs then [(path, HNode.elem tag attrs cs)] else []) ++
      selectForest p path 0 cs
def selectForest (p : String → List (String × String) → Bool) (path : List Nat)
    (i : Nat) : HForest → List (List Nat × HNode)
  | .nil => []
  | .cons c cs => selectNode p (path ++ [i]) c ++ selectForest p path (i + 1) cs
end

/-- All matching elements of a document, in document order, with paths
(BeautifulSoup's `soup.select` / `soup.find_all`). -/
def selectDoc (p : String → List (String × String) → Bool) (doc : Soup) :
    List (List Nat × HNode) :=
  selectForest p [] 0 doc

/-- The first matching element of a document in document order
(BeautifulSoup's `soup.find`). -/
def findFirst (p : String → List (String × String) → Bool) (doc : Soup) :
    Option HNode :=
  (selectDoc p doc).head?.map (fun x => x.2)

mutual
/-- All `tag`-elements strictly below a node (BeautifulSoup's
`node.find_all(tag)`, which searches descendants only). -/
def findAllTagIn (t : String) : HNode → List HNode
  | .text _ => []
  | .elem _ _ cs => findAllTagForest t cs
def findAllTagForest (t : String) : HForest → List HNode
  | .nil => []
  | .cons c cs =>
    (match c with
     | .elem tag attrs cs' =>
       (if tag = t then [HNode.elem tag attrs cs'] else []) ++ findAllTagForest t cs'
     | .text _ => []) ++ findAllTagForest t cs
end

/-! ### The article extractor (`crawl_thefalse9.py`, lines 28-113) -/

/-- Source: `crawl_thefalse9.Article` (lines 28-32). -/
structure Article where
  title : String
  url : String
  text : String
deriving DecidableEq, Repr

/-- Source: `crawl_thefalse9._normalize_classes` (lines 55-60), composed
with BeautifulSoup's multi-valued `class` attribute access: the `class`
attribute string split on whitespace into non-empty class names
(`None`/missing gives `[]`). -/
def normalize_classes : Option String → List String
  | none => []
  | some s => ((splitOnPred Char.isWhitespace s.data).map String.mk).filter (fun w => w ≠ "")

/-- The `class` attribute of a node (`node.get("class")`). -/
def nodeClass : HNode → Option String
  | .elem _ attrs _ => getAttr attrs "class"
  | .text _ => none

/-- Source: `crawl_thefalse9._extract_text_from_node` (lines 63-68):
the `get_text(" ", strip=True)` of every descendant `<p>`, non-empty
paragraphs joined by a blank line. -/
def extract_text_from_node (node : HNode) : String :=
  String.intercalate "\n\n"
    (((findAllTagIn "p" node).map (fun p => getText " " p)).filter (fun s => s ≠ ""))

/-- The candidate body selectors of `extract_article_text` (lines
79-85): a CSS `[class*='…']` substring selector, or the bare `article`
tag selector. -/
inductive Sel where
  | clsContains (pat : String)
  | tagArticle
deriving DecidableEq, Repr

/-- Source: `candidate_selectors` (lines 79-85), in evaluation order. -/
def candidate_selectors : List Sel :=
  [.clsContains "entry-content", .clsContains "post-content",
   .clsContains "article-content", .clsContains "post-body", .tagArticle]

/-- Whether an element matches a selector: `[class*='pat']` matches when
the `class` attribute value contains `pat` as a substring; `article`
matches on the tag name. -/
def selMatch : Sel → String → List (String × String) → Bool
  | .clsContains pat, _, attrs =>
    match getAttr attrs "class" with
    | some c => strContains c pat
    | none => false
  | .tagArticle, tag, _ => tag = "article"

/-- Source: `keywords` (line 90). -/
def keywords : List String := ["entry", "post", "article"]

/-- Source: lines 99-104 of `extract_article_text`: a node reached via
the generic `article` selector is skipped when it has a non-empty class
list none of whose classes contains one of the `keywords`; nodes reached
via the `[class*='…']` selectors are never skipped this way. -/
def rejectGeneric (sel : Sel) (node : HNode) : Bool :=
  match sel with
  | .clsContains _ => false
  | .tagArticle =>
    let classes := normalize_classes (nodeClass node)
    !classes.isEmpty &&
      !(classes.any (fun cls => keywords.any (fun kw => strContains cls kw)))

/-- The inner node loop of `extract_article_text` (lines 93-108) for one
selector: state is (`seen_nodes` as paths, `best_text`). -/
def scanNodes (sel : Sel) (state : List (List Nat) × String) :
    List (List Nat × HNode) → List (List Nat) × String
  | [] => state
  | (path, node) :: rest =>
    if path ∈ state.1 then scanNodes sel state rest
    else if rejectGeneric sel node then scanNodes sel (path :: state.1, state.2) rest
    else
      let text := extract_text_from_node node
      if state.2.length < text.length then scanNodes sel (path :: state.1, text) rest
      else scanNodes sel (path :: state.1, state.2) rest

/-- The outer selector loop of `extract_article_text` (lines 92-108). -/
def scanSelectors (doc : Soup) (state : List (List Nat) × String) :
    List Sel → List (List Nat) × String
  | [] => state
  | sel :: sels =>
    scanSelectors doc (scanNodes sel state (selectDoc (fun t a => selMatch sel t a) doc)) sels

/-- Source: lines 72-77 of `extract_article_text`: the `title` variable —
the text of the first `<h1>` when one exists; otherwise the stripped
`og:title` content when that meta tag exists with a non-empty `content`;
otherwise the page URL. -/
def resolveTitle (url : String) (doc : Soup) : String :=
  match findFirst (fun tag _ => tag = "h1") doc with
  | some h1 => getText "" h1
  | none =>
    match findFirst (fun tag attrs => tag = "meta" && getAttr attrs "property" == some "og:title") doc with
    | some meta =>
      match getAttr meta.attrsOf "content" with
      | some c => if c = "" then url else strTrim c
      | none => url
    | none => url

/-- Source: `crawl_thefalse9.extract_article_text` (lines 71-113). -/
def extract_article_text (url : String) (doc : Soup) : Option Article :=
  let title := resolveTitle url doc
  let best_text := (scanSelectors doc ([], "") candidate_selectors).2
  if strTrim best_text = "" then none
  else some ⟨if title = "" then url else title, url, strTrim best_text⟩

/-- Source: `crawl_thefalse9.extract_article_links` (lines 46-52): the
`href` of every `<a href=…>` element.  The source collects them into a
Python `set` (an unspecified enumeration order with no duplicates);
this model enumerates them in document order, deduplicated. -/
def extract_article_links (doc : Soup) : List String :=
  ((selectDoc (fun tag attrs => tag = "a" && (getAttr attrs "href").isSome) doc).filterMap
    (fun x => getAttr x.2.attrsOf "href")).dedup

/-! ### The crawler (`crawl_thefalse9.crawl`, lines 162-216)

The page fetcher (`get_soup`: `requests.get` + `raise_for_status` +
BeautifulSoup parsing) is an external collaborator, modelled as a
function `env : String → Option Soup`; `env url = none` models a fetch
that raises for `url`.  The loop state is the frontier queue `to_visit`,
the visited set `seen`, the captured `articles` and the known-URL set
`known_articles`; the loop returns the pair (`articles`, `seen`) so
that the visited set is observable (`crawl` itself returns only the
articles, as in the source). -/

/-- Source: line 201, `if max_new_articles and len(articles) >= max_new_articles`
(`None` and `0` are falsy, so neither enables the cap). -/
def capReached : Option Nat → Nat → Bool
  | none, _ => false
  | some n, len => n ≠ 0 && len ≥ n

/-- Source: lines 209-212: every link of the page, made absolute against
the current URL, kept when not yet visited and same-domain. -/
def nextLinks (current_url : String) (seen : List String) (soup : Soup) : List String :=
  ((extract_article_links soup).map (fun href => urljoin current_url href)).filter
    (fun u => !decide (u ∈ seen) && is_same_domain u)

/-- Source: the `while` loop of `crawl` (lines 174-216).  Returns
(`articles`, `seen`). -/
def crawlLoop (env : String → Option Soup) (maxN : Option Nat)
    (tv seen : List String) (articles : List Article) (known : List String) :
    List Article × List String :=
  match tv with
  | [] => (articles, seen)
  | current :: rest =>
    if hcap : MAX_PAGES ≤ seen.length then (articles, seen)
    else if hs : current ∈ seen then
      crawlLoop env maxN rest seen articles known
    else if hdom : is_same_domain (urljoin BASE_URL current) = false then
      crawlLoop env maxN rest (current :: seen) articles known
    else
      match env (urljoin BASE_URL current) with
      | none => crawlLoop env maxN rest (current :: seen) articles known
      | some soup =>
        match extract_article_text (urljoin BASE_URL current) soup with
        | none =>
          crawlLoop env maxN
            (rest ++ nextLinks (urljoin BASE_URL current) (current :: seen) soup)
            (current :: seen) articles known
        | some article =>
          if hknown : article.url ∈ known then
            crawlLoop env maxN
              (rest ++ nextLinks (urljoin BASE_URL current) (current :: seen) soup)
              (current :: seen) articles known
          else if hbrk : capReached maxN (articles ++ [article]).length then
            (articles ++ [article], current :: seen)
          else
            crawlLoop env maxN
              (rest ++ nextLinks (urljoin BASE_URL current) (current :: seen) soup)
              (current :: seen) (articles ++ [article]) (article.url :: known)
termination_by (MAX_PAGES - seen.length, tv.length)
decreasing_by
all_goals simp_wf
· exact Prod.Lex.right _ (Nat.lt_succ_self _)
all_goals exact Prod.Lex.left _ _ (by omega)

/-- Source: `crawl_thefalse9.crawl` (lines 162-216): runs the loop from
the seed URLs with empty visited set, no captured articles, and the
existing URLs as already known, and returns the captured articles. -/
def crawl (env : String → Option Soup) (start_urls : List String)
    (existing_urls : List String) (max_new_articles : Option Nat) : List Article :=
  (crawlLoop env max_new_articles start_urls [] [] existing_urls).1

/-- The same loop body, driven by an explicit iteration budget `fuel`
instead of well-founded recursion; `none` means the budget ran out
before the loop exited.  Used to state termination (claim C10). -/
def crawlLoopF (env : String → Option Soup) (maxN : Option Nat) :
    Nat → List String → List String → List Article → List String →
    Option (List Article × List String)
  | 0, _, _, _, _ => none
  | fuel + 1, tv, seen, articles, known =>
    match tv with
    | [] => some (articles, seen)
    | current :: rest =>
      if MAX_PAGES ≤ seen.length then some (articles, seen)
      else if current ∈ seen then
        crawlLoopF env maxN fuel rest seen articles known
      else if is_same_domain (urljoin BASE_URL current) = false then
        crawlLoopF env maxN fuel rest (current :: seen) articles known
      else
        match env (urljoin BASE_URL current) with
        | none => crawlLoopF env maxN fuel rest (current :: seen) articles known
        | some soup =>
          match extract_article_text (urljoin BASE_URL current) soup with
          | none =>
            crawlLoopF env maxN fuel
              (rest ++ nextLinks (urljoin BASE_URL current) (current :: seen) soup)
              (current :: seen) articles known
          | some article =>
            if article.url ∈ known then
              crawlLoopF env maxN fuel
                (rest ++ nextLinks (urljoin BASE_URL current) (current :: seen) soup)
                (current :: seen) articles known
            else if capReached maxN (articles ++ [article]).length then
              some (articles ++ [article], current :: seen)
            else
              crawlLoopF env maxN fuel
                (rest ++ nextLinks (urljoin BASE_URL current) (current :: seen) soup)
                (current :: seen) (articles ++ [article]) (article.url :: known)

/-! ### The embedding index (`app/rag.py`)

Numbers are exact rationals; `math.sqrt` is the explicit parameter `sq`
(see the header).  The index file on disk is `Option (List RawRecord)`:
`none` models a missing file, `some data` a file parsing to the JSON
list `data`. -/

/-- One persisted JSON index record.  A field is `none` when it is
absent from the JSON object (or, for `embedding`, when its value is not
a list; for `norm`, when its value is `null`). -/
structure RawRecord where
  title : Option String
  url : Option String
  text : Option String
  embedding : Option (List ℚ)
  norm : Option ℚ
deriving DecidableEq, Repr

/-- One in-memory index record as produced by `load_index`. -/
structure IndexRecord where
  title : String
  url : String
  text : String
  embedding : List ℚ
  norm : ℚ
deriving DecidableEq, Repr

/-- One result dict of `search_context` (keys `title`, `url`, `text`). -/
structure Ctx where
  title : String
  url : String
  text : String
deriving DecidableEq, Repr

/-- `sum(x * x for x in v)`. -/
def sumSq (v : List ℚ) : ℚ :=
  (v.map (fun x => x * x)).sum

/-- `sum(x * y for x, y in zip(a, b))`. -/
def dotProd (a b : List ℚ) : ℚ :=
  ((a.zip b).map (fun p => p.1 * p.2)).sum

/-- The largest `r ≤ m` with `r * r ≤ n` (a structurally recursive
integer square root, so that concrete statements evaluate inside the
kernel). -/
def natSqrtBelow (n : Nat) : Nat → Nat
  | 0 => 0
  | m + 1 => if (m + 1) * (m + 1) ≤ n then m + 1 else natSqrtBelow n m

/-- A computable stand-in for `math.sqrt`: exact on the squares of
naturals (so it agrees with the real square root at every value a
concrete statement below evaluates it at), and `0` off them. -/
def ratSqrt (q : ℚ) : ℚ :=
  let n := q.num.toNat
  if q.den = 1 ∧ 0 ≤ q.num ∧ (natSqrtBelow n n) * (natSqrtBelow n n) = n then
    (natSqrtBelow n n : ℚ)
  else 0

/-- Source: the loop body of `app/rag.load_index` (lines 82-98):
records whose `embedding` is not a non-empty list are dropped;
`norm` is `float(item.get("norm") or math.sqrt(sum(x*x for x in emb)))`
— the stored value when present and truthy (non-zero), else the
recomputed norm of the embedding; missing string fields default to `""`. -/
def loadRecord (sq : ℚ → ℚ) (item : RawRecord) : Option IndexRecord :=
  match item.embedding with
  | none => none
  | some emb =>
    if emb.isEmpty then none
    else
      some { title := item.title.getD ""
             url := item.url.getD ""
             text := item.text.getD ""
             embedding := emb
             norm :=
               match item.norm with
               | some n => if n = 0 then sq (sumSq emb) else n
               | none => sq (sumSq emb) }

/-- Source: `app/rag.load_index` (lines 81-100): the per-record loop,
dropping records that fail validation. -/
def load_index (sq : ℚ → ℚ) (data : List RawRecord) : List IndexRecord :=
  data.filterMap (loadRecord sq)

/-- Source: lines 74-79 of `load_index`: a missing index file yields the
empty index; otherwise the parsed list is normalised as above. -/
def load_index_file (sq : ℚ → ℚ) (file : Option (List RawRecord)) : List IndexRecord :=
  match file with
  | none => []
  | some data => load_index sq data

/-- Source: `app/rag._cosine_similarity` (lines 103-112, named
`cosine_similarity` here because Lean identifiers cannot start with an
underscore): `0.0` when either norm is exactly zero, else
`dot / (norm_a * norm_b)`. -/
def cosine_similarity (sq : ℚ → ℚ) (a b : List ℚ) (norm_b : ℚ) : ℚ :=
  let norm_a := sq (sumSq a)
  if norm_a = 0 ∨ norm_b = 0 then 0
  else dotProd a b / (norm_a * norm_b)

/-- Source: `app/rag.search_context` (lines 115-139).  Python's
`list.sort(key=…, reverse=True)` is a stable descending sort; any two
stable sorts agree as functions, so it is modelled by Mathlib's
(stable) insertion sort with relation "score at least as large". -/
def search_context (sq : ℚ → ℚ) (embed : String → List ℚ)
    (file : Option (List RawRecord)) (query : String) (k : Nat) : List Ctx :=
  let index := load_index_file sq file
  if index.isEmpty then []
  else
    let query_emb := embed query
    let scored := index.map (fun item =>
      (cosine_similarity sq query_emb item.embedding item.norm, item))
    let sorted := List.insertionSort (fun x y => y.1 ≤ x.1) scored
    ((sorted.take k).map (fun p => p.2)).map (fun it => ⟨it.title, it.url, it.text⟩)

/-- One corpus entry passed to `build_index_from_corpus` (a dict with
keys `title`, `url`, `text`; `.get(…, "")` defaults are already folded
into the fields). -/
structure CorpusItem where
  title : String
  url : String
  text : String
deriving DecidableEq, Repr

/-- The per-article loop of `build_index_from_corpus` (lines 174-195):
skip empty-text articles, skip articles whose (truthy) URL is already
known, otherwise embed and append a fresh record, remembering the URL. -/
def buildNew (sq : ℚ → ℚ) (embed : String → List ℚ) :
    List CorpusItem → List String → List RawRecord
  | [], _ => []
  | article :: rest, existing_urls =>
    if article.text = "" then buildNew sq embed rest existing_urls
    else if article.url ≠ "" ∧ article.url ∈ existing_urls then
      buildNew sq embed rest existing_urls
    else
      { title := some article.title
        url := some article.url
        text := some article.text
        embedding := some (embed article.text)
        norm := some (sq (sumSq (embed article.text))) } ::
        buildNew sq embed rest
          (if article.url ≠ "" then article.url :: existing_urls else existing_urls)

/-- The truthy URLs of a list of raw records (the `existing_urls` set of
lines 168-172). -/
def truthyUrls (recs : List RawRecord) : List String :=
  (recs.filterMap (fun r => r.url)).filter (fun u => u ≠ "")

/-- Source: `app/rag.build_index_from_corpus` (lines 142-204): load the
existing records (missing file gives `[]`), build the new records, and
either leave the file untouched (no new records) or write existing ++
new back. -/
def build_index_from_corpus (sq : ℚ → ℚ) (embed : String → List ℚ)
    (corpus : List CorpusItem) (file : Option (List RawRecord)) :
    Option (List RawRecord) :=
  let existing_records := file.getD []
  let new_records := buildNew sq embed corpus (truthyUrls existing_records)
  if new_records.isEmpty then file
  else some (existing_records ++ new_records)
theorem nextLinks_length_le (cu : String) (seen : List String) (soup : Soup) :
    (nextLinks cu seen soup).length ≤ (extract_article_links soup).length := by
  calc (nextLinks cu seen soup).length
      ≤ ((extract_article_links soup).map (fun href => urljoin cu href)).length :=
        List.length_filter_le _ _
    _ = (extract_article_links soup).length := List.length_map _ _

theorem crawlLoopF_complete (env : String → Option Soup) (maxN : Option Nat) (L : Nat)
    (hL : ∀ u soup, env u = some soup → (extract_article_links soup).length ≤ L) :
    ∀ fuel tv seen articles known,
      (MAX_PAGES - seen.length) * (L + 1) + tv.length + 1 ≤ fuel →
      crawlLoopF env maxN fuel tv seen articles known =
        some (crawlLoop env maxN tv seen articles known) := by
  intro fuel
  induction fuel with
  | zero => intro tv seen articles known h; omega
  | succ fuel ih =>
    intro tv seen articles known hb
    match tv with
    | [] =>
      rw [crawlLoop, crawlLoopF]
    | current :: rest =>
      rw [crawlLoop, crawlLoopF]
      by_cases h1 : MAX_PAGES ≤ seen.length
      · rw [if_pos h1, dif_pos h1]
      · have hgrow : (MAX_PAGES - (seen.length + 1)) * (L + 1) + (L + 1)
            = (MAX_PAGES - seen.length) * (L + 1) := by
          have h2 : MAX_PAGES - seen.length = (MAX_PAGES - (seen.length + 1)) + 1 := by omega
          rw [h2, Nat.succ_mul]
        simp only [List.length_cons] at hb
        rw [if_neg h1, dif_neg h1]
        by_cases h2 : current ∈ seen
        · rw [if_pos h2, dif_pos h2]
          apply ih
          omega
        · rw [if_neg h2, dif_neg h2]
          by_cases h3 : is_same_domain (urljoin BASE_URL current) = false
          · rw [if_pos h3, dif_pos h3]
            apply ih
            simp only [List.length_cons]
            omega
          · rw [if_neg h3, dif_neg h3]
            cases henv : env (urljoin BASE_URL current) with
            | none =>
              dsimp only
              apply ih
              simp only [List.length_cons]
              omega
            | some soup =>
              have hnl : (nextLinks (urljoin BASE_URL current) (current :: seen) soup).length ≤ L :=
                le_trans (nextLinks_length_le _ _ _) (hL _ _ henv)
              dsimp only
              cases hart : extract_article_text (urljoin BASE_URL current) soup with
              | none =>
                dsimp only
                apply ih
                simp only [List.length_cons, List.length_append]
                omega
              | some article =>
                dsimp only
                by_cases h4 : article.url ∈ known
                · rw [if_pos h4, dif_pos h4]
                  apply ih
                  simp only [List.length_cons, List.length_append]
                  omega
                · rw [if_neg h4, dif_neg h4]
                  by_cases h5 : capReached maxN (articles ++ [article]).length = true
                  · rw [if_pos h5, dif_pos h5]
                  · rw [if_neg h5, dif_neg h5]
                    apply ih
                    simp only [List.length_cons, List.length_append]
                    omega

/-- Transfer lemma: a concrete fuel-driven run determines the value of
the well-founded loop. -/
theorem crawlLoop_eq_of_F (env : String → Option Soup) (maxN : Option Nat) (L fuel : Nat)
    (tv seen : List String) (articles : List Article) (known : List String)
    (r : List Article × List String)
    (hL : ∀ u soup, env u = some soup → (extract_article_links soup).length ≤ L)
    (hb : (MAX_PAGES - seen.length) * (L + 1) + tv.length + 1 ≤ fuel)
    (hF : crawlLoopF env maxN fuel tv seen articles known = some r) :
    crawlLoop env maxN tv seen articles known = r := by
  have h := crawlLoopF_complete env maxN L hL fuel tv seen articles known hb
  rw [hF] at h
  exact (Option.some.inj h).symm
theorem extract_article_text_url (url : String) (doc : Soup) (a : Article)
    (h : extract_article_text url doc = some a) : a.url = url := by
  unfold extract_article_text at h
  by_cases hb : strTrim (scanSelectors doc ([], "") candidate_selectors).2 = ""
  · rw [if_pos hb] at h
    cases h
  · rw [if_neg hb] at h
    cases h
    rfl

theorem nextLinks_same_domain (cu : String) (seen : List String) (soup : Soup) (u : String)
    (h : u ∈ nextLinks cu seen soup) : is_same_domain u = true := by
  unfold nextLinks at h
  have h2 := (List.mem_filter.mp h).2
  exact (Bool.and_eq_true _ _ |>.mp h2).2

theorem crawlLoop_capped (env : String → Option Soup) (n : Nat) :
    ∀ tv seen articles known, articles.length < n →
      (crawlLoop env (some n) tv seen articles known).1.length ≤ n := by
  intro tv seen articles known
  induction tv, seen, articles, known using crawlLoop.induct env (some n) with
  | case1 seen articles known =>
    intro h
    rw [crawlLoop]
    exact h.le
  | case2 seen articles known current rest h1 =>
    intro h
    rw [crawlLoop, dif_pos h1]
    exact h.le
  | case3 seen articles known current rest h1 h2 ih =>
    intro h
    rw [crawlLoop, dif_neg h1, dif_pos h2]
    exact ih h
  | case4 seen articles known current rest h1 h2 h3 ih =>
    intro h
    rw [crawlLoop, dif_neg h1, dif_neg h2, dif_pos h3]
    exact ih h
  | case5 seen articles known current rest h1 h2 h3 henv ih =>
    intro h
    rw [crawlLoop, dif_neg h1, dif_neg h2, dif_neg h3, henv]
    dsimp only
    exact ih h
  | case6 seen articles known current rest h1 h2 h3 soup henv hart ih =>
    intro h
    rw [crawlLoop, dif_neg h1, dif_neg h2, dif_neg h3, henv]
    dsimp only
    rw [hart]
    exact ih h
  | case7 seen articles known current rest h1 h2 h3 soup henv article hart h4 ih =>
    intro h
    rw [crawlLoop, dif_neg h1, dif_neg h2, dif_neg h3, henv]
    dsimp only
    rw [hart]
    dsimp only
    rw [dif_pos h4]
    exact ih h
  | case8 seen articles known current rest h1 h2 h3 soup henv article hart h4 h5 =>
    intro h
    rw [crawlLoop, dif_neg h1, dif_neg h2, dif_neg h3, henv]
    dsimp only
    rw [hart]
    dsimp only
    rw [dif_neg h4, dif_pos h5]
    simp only [List.length_append, List.length_cons, List.length_nil]
    omega
  | case9 seen articles known current rest h1 h2 h3 soup henv article hart h4 h5 ih =>
    intro h
    rw [crawlLoop, dif_neg h1, dif_neg h2, dif_neg h3, henv]
    dsimp only
    rw [hart]
    dsimp only
    rw [dif_neg h4, dif_neg h5]
    apply ih
    simp only [capReached, ne_eq, Bool.and_eq_true, decide_eq_true_eq,
      List.length_append, List.length_cons, List.length_nil] at h5
    simp only [List.length_append, List.length_cons, List.length_nil]
    omega
theorem crawlLoop_domain (env : String → Option Soup) (maxN : Option Nat) (start : List String) :
    ∀ tv seen articles known,
      (∀ u ∈ tv, u ∈ start ∨ is_same_domain u = true) →
      (∀ u ∈ seen, u ∈ start ∨ is_same_domain u = true) →
      (∀ a ∈ articles, is_same_domain a.url = true) →
      (∀ u ∈ (crawlLoop env maxN tv seen articles known).2, u ∈ start ∨ is_same_domain u = true) ∧
      (∀ a ∈ (crawlLoop env maxN tv seen articles known).1, is_same_domain a.url = true) := by
  intro tv seen articles known
  induction tv, seen, articles, known using crawlLoop.induct env maxN with
  | case1 seen articles known =>
    intro _ hseen harts
    rw [crawlLoop]
    exact ⟨hseen, harts⟩
  | case2 seen articles known current rest h1 =>
    intro _ hseen harts
    rw [crawlLoop, dif_pos h1]
    exact ⟨hseen, harts⟩
  | case3 seen articles known current rest h1 h2 ih =>
    intro htv hseen harts
    rw [crawlLoop, dif_neg h1, dif_pos h2]
    exact ih (fun u hu => htv u (List.mem_cons_of_mem _ hu)) hseen harts
  | case4 seen articles known current rest h1 h2 h3 ih =>
    intro htv hseen harts
    rw [crawlLoop, dif_neg h1, dif_neg h2, dif_pos h3]
    refine ih (fun u hu => htv u (List.mem_cons_of_mem _ hu)) ?_ harts
    intro u hu
    rcases List.mem_cons.mp hu with h | h
    · exact h ▸ htv current (List.mem_cons_self _ _)
    · exact hseen u h
  | case5 seen articles known current rest h1 h2 h3 henv ih =>
    intro htv hseen harts
    rw [crawlLoop, dif_neg h1, dif_neg h2, dif_neg h3, henv]
    dsimp only
    refine ih (fun u hu => htv u (List.mem_cons_of_mem _ hu)) ?_ harts
    intro u hu
    rcases List.mem_cons.mp hu with h | h
    · exact h ▸ htv current (List.mem_cons_self _ _)
    · exact hseen u h
  | case6 seen articles known current rest h1 h2 h3 soup henv hart ih =>
    intro htv hseen harts
    rw [crawlLoop, dif_neg h1, dif_neg h2, dif_neg h3, henv]
    dsimp only
    rw [hart]
    refine ih ?_ ?_ harts
    · intro u hu
      rcases List.mem_append.mp hu with h | h
      · exact htv u (List.mem_cons_of_mem _ h)
      · exact Or.inr (nextLinks_same_domain _ _ _ _ h)
    · intro u hu
      rcases List.mem_cons.mp hu with h | h
      · exact h ▸ htv current (List.mem_cons_self _ _)
      · exact hseen u h
  | case7 seen articles known current rest h1 h2 h3 soup henv article hart h4 ih =>
    intro htv hseen harts
    rw [crawlLoop, dif_neg h1, dif_neg h2, dif_neg h3, henv]
    dsimp only
    rw [hart]
    dsimp only
    rw [dif_pos h4]
    refine ih ?_ ?_ harts
    · intro u hu
      rcases List.mem_append.mp hu with h | h
      · exact htv u (List.mem_cons_of_mem _ h)
      · exact Or.inr (nextLinks_same_domain _ _ _ _ h)
    · intro u hu
      rcases List.mem_cons.mp hu with h | h
      · exact h ▸ htv current (List.mem_cons_self _ _)
      · exact hseen u h
  | case8 seen articles known current rest h1 h2 h3 soup henv article hart h4 h5 =>
    intro htv hseen harts
    rw [crawlLoop, dif_neg h1, dif_neg h2, dif_neg h3, henv]
    dsimp only
    rw [hart]
    dsimp only
    rw [dif_neg h4, dif_pos h5]
    constructor
    · intro u hu
      rcases List.mem_cons.mp hu with h | h
      · exact h ▸ htv current (List.mem_cons_self _ _)
      · exact hseen u h
    · intro a ha
      rcases List.mem_append.mp ha with h | h
      · exact harts a h
      · have ha2 : a = article := List.mem_singleton.mp h
        subst ha2
        rw [extract_article_text_url _ _ _ hart]
        cases hsd : is_same_domain (urljoin BASE_URL current) with
        | false => exact absurd hsd h3
        | true => rfl
  | case9 seen articles known current rest h1 h2 h3 soup henv article hart h4 h5 ih =>
    intro htv hseen harts
    rw [crawlLoop, dif_neg h1, dif_neg h2, dif_neg h3, henv]
    dsimp only
    rw [hart]
    dsimp only
    rw [dif_neg h4, dif_neg h5]
    refine ih ?_ ?_ ?_
    · intro u hu
      rcases List.mem_append.mp hu with h | h
      · exact htv u (List.mem_cons_of_mem _ h)
      · exact Or.inr (nextLinks_same_domain _ _ _ _ h)
    · intro u hu
      rcases List.mem_cons.mp hu with h | h
      · exact h ▸ htv current (List.mem_cons_self _ _)
      · exact hseen u h
    · intro a ha
      rcases List.mem_append.mp ha with h | h
      · exact harts a h
      · have ha2 : a = article := List.mem_singleton.mp h
        subst ha2
        rw [extract_article_text_url _ _ _ hart]
        cases hsd : is_same_domain (urljoin BASE_URL current) with
        | false => exact absurd hsd h3
        | true => rfl
/-! ### Concrete fetch environments for witnesses and counterexamples -/

/-- A fetch environment with a single reachable page: the seed page at
`https://thefalse9.com/start` contains one link, to
`https://evilthefalse9.com/x` — a host that is neither `thefalse9.com`
nor one of its subdomains but whose name ends in `thefalse9.com`.
Every other fetch fails. -/
def envEvil : String → Option Soup := fun u =>
  if u = "https://thefalse9.com/start" then
    some (HForest.ofList [.elem "a" [("href", "https://evilthefalse9.com/x")] HForest.nil])
  else none

theorem envEvil_links : ∀ u soup, envEvil u = some soup →
    (extract_article_links soup).length ≤ 1 := by
  intro u soup h
  unfold envEvil at h
  by_cases hu : u = "https://thefalse9.com/start"
  · rw [if_pos hu] at h
    cases h
    decide
  · rw [if_neg hu] at h
    cases h

/-- A fetch environment with a single article page at
`https://thefalse9.com/a` (one generic class-less `<article>` wrapper
with one paragraph, no headings, no metadata, no links); every other
fetch fails. -/
def envArt : String → Option Soup := fun u =>
  if u = "https://thefalse9.com/a" then
    some (HForest.ofList
      [.elem "article" [] (HForest.ofList [.elem "p" [] (HForest.ofList [.text "body"])])])
  else none

theorem envArt_links : ∀ u soup, envArt u = some soup →
    (extract_article_links soup).length ≤ 0 := by
  intro u soup h
  unfold envArt at h
  by_cases hu : u = "https://thefalse9.com/a"
  · rw [if_pos hu] at h
    cases h
    decide
  · rw [if_neg hu] at h
    cases h

/-- The article the crawler extracts from `envArt`'s page (no `<h1>` and
no `og:title`, so its title is the page URL). -/
def artA : Article :=
  ⟨"https://thefalse9.com/a", "https://thefalse9.com/a", "body"⟩

theorem crawl_envEvil_eval :
    crawlLoop envEvil none ["https://thefalse9.com/start"] [] [] [] =
      ([], ["https://evilthefalse9.com/x", "https://thefalse9.com/start"]) :=
  crawlLoop_eq_of_F envEvil none 1 402 _ _ _ _ _ envEvil_links (by decide) (by decide)

theorem crawl_envArt_eval0 :
    crawlLoop envArt (some 0) ["https://thefalse9.com/a"] [] [] [] =
      ([artA], ["https://thefalse9.com/a"]) :=
  crawlLoop_eq_of_F envArt (some 0) 0 202 _ _ _ _ _ envArt_links (by decide) (by decide)

/-- The seed domain of the crawl, as the spec means it: the host
`thefalse9.com` itself or one of its subdomains. -/
def inSeedDomain (u : String) : Bool :=
  netloc u = "thefalse9.com" || strEnds (netloc u) ".thefalse9.com"

/-- Counterexample to claim C1 as stated: starting from a seed inside the
seed domain, the URL `https://evilthefalse9.com/x` — whose host is neither
`thefalse9.com` nor one of its subdomains — ends up in the crawler's
visited set `seen`, because `is_same_domain` tests
`netloc.endswith("thefalse9.com")` without an anchoring dot. -/
theorem c1_counterexample :
    inSeedDomain "https://thefalse9.com/start" = true ∧
    "https://evilthefalse9.com/x" ∈
      (crawlLoop envEvil none ["https://thefalse9.com/start"] [] [] []).2 ∧
    inSeedDomain "https://evilthefalse9.com/x" = false := by
  refine ⟨by decide, ?_, by decide⟩
  rw [crawl_envEvil_eval]
  decide

/-- C1 (amended): every Article captured by `crawl` has a URL passing the
code's own domain test `is_same_domain` (netloc ends with
`thefalse9.com` — which also admits hosts merely ending in that string),
and every URL in the visited set `seen` is either a seed URL or passes
`is_same_domain`; seed URLs enter `seen` before the domain check, and
`is_same_domain` is strictly weaker than membership in the seed domain. -/
theorem c1_domain_containment : ∀ (env : String → Option Soup)
    (start existing : List String) (maxN : Option Nat),
    (∀ a ∈ crawl env start existing maxN, is_same_domain a.url = true) ∧
    (∀ u ∈ (crawlLoop env maxN start [] [] existing).2,
      u ∈ start ∨ is_same_domain u = true) := by
  intro env start existing maxN
  have h := crawlLoop_domain env maxN start start [] [] existing
    (fun u hu => Or.inl hu) (by simp) (by simp)
  exact ⟨h.2, h.1⟩

/-- Witness for C1: a concrete crawl in which an article is captured,
and its URL passes the domain test. -/
theorem c1_witness : is_same_domain artA.url = true := by
  apply (c1_domain_containment envArt ["https://thefalse9.com/a"] [] (some 0)).1
  show artA ∈ (crawlLoop envArt (some 0) ["https://thefalse9.com/a"] [] [] []).1
  rw [crawl_envArt_eval0]
  exact List.mem_singleton_self _

/-- C9 (amended): for every crawl invoked with `max_new_articles = some n`
where `n ≥ 1`, the returned Articles list has length at most `n`.  (For
`n = 0` the cap is disabled — Python's `if max_new_articles and …` treats
`0` as falsy — see the counterexample.) -/
theorem c9_bounded : ∀ (env : String → Option Soup)
    (start existing : List String) (n : Nat), 1 ≤ n →
    (crawl env start existing (some n)).length ≤ n := by
  intro env start existing n hn
  exact crawlLoop_capped env n start [] [] existing (by simpa using hn)

/-- Witness for C9: a concrete capped crawl returning at most one article. -/
theorem c9_witness : (crawl envArt ["https://thefalse9.com/a"] [] (some 1)).length ≤ 1 :=
  c9_bounded envArt ["https://thefalse9.com/a"] [] 1 (le_refl 1)

/-- Counterexample to claim C9 as stated: with `max_new_articles = 0` the
returned list has length 1 > 0, because `0` is falsy and disables the cap. -/
theorem c9_counterexample :
    ¬ ((crawl envArt ["https://thefalse9.com/a"] [] (some 0)).length ≤ 0) := by
  show ¬ ((crawlLoop envArt (some 0) ["https://thefalse9.com/a"] [] [] []).1.length ≤ 0)
  rw [crawl_envArt_eval0]
  decide

/-- C10: every crawl run terminates.  The fuel-indexed loop `crawlLoopF`
(which returns `none` when its iteration budget is exhausted before the
loop exits by one of its three exit conditions: empty queue, `MAX_PAGES`
visited-set cap, or the new-article cap) completes, with the explicit
iteration bound `MAX_PAGES * (L + 1) + |start| + 1`, and agrees with the
loop `crawlLoop`, whenever each fetched page carries at most `L` links;
the totality of `crawlLoop` itself is by well-founded recursion on
(`MAX_PAGES - |seen|`, `|to_visit|`). -/
theorem c10_termination : ∀ (env : String → Option Soup) (maxN : Option Nat)
    (start existing : List String) (L : Nat),
    (∀ u soup, env u = some soup → (extract_article_links soup).length ≤ L) →
    ∀ fuel, MAX_PAGES * (L + 1) + start.length + 1 ≤ fuel →
      crawlLoopF env maxN fuel start [] [] existing =
        some (crawlLoop env maxN start [] [] existing) := by
  intro env maxN start existing L hL fuel hf
  apply crawlLoopF_complete env maxN L hL
  simpa using hf

/-- Witness for C10: a concrete crawl completing within the stated bound. -/
theorem c10_witness :
    crawlLoopF envArt none 202 ["https://thefalse9.com/a"] [] [] [] =
      some (crawlLoop envArt none ["https://thefalse9.com/a"] [] [] []) :=
  c10_termination envArt none ["https://thefalse9.com/a"] [] 0 envArt_links 202 (by decide)
/-- The og:title meta-tag lookup of `extract_article_text` line 74. -/
def findOgTitle (doc : Soup) : Option HNode :=
  findFirst (fun tag attrs => tag = "meta" && getAttr attrs "property" == some "og:title") doc

/-- Title resolution as amended claim C4 states it. -/
def titleSpec (url : String) (doc : Soup) : String :=
  match findFirst (fun tag _ => tag = "h1") doc with
  | some h1 => if getText "" h1 = "" then url else getText "" h1
  | none =>
    match findOgTitle doc with
    | some meta =>
      match getAttr meta.attrsOf "content" with
      | some c => if strTrim c = "" then url else strTrim c
      | none => url
    | none => url

theorem resolveTitle_or_url (url : String) (doc : Soup) :
    (if resolveTitle url doc = "" then url else resolveTitle url doc) = titleSpec url doc := by
  unfold resolveTitle titleSpec findOgTitle
  cases findFirst (fun tag _ => tag = "h1") doc with
  | some h1 => rfl
  | none =>
    dsimp only
    cases findFirst (fun tag attrs => tag = "meta" && getAttr attrs "property" == some "og:title") doc with
    | none =>
      dsimp only
      by_cases hu : url = ""
      · rw [if_pos hu, hu]
      · rw [if_neg hu]
    | some meta =>
      dsimp only
      cases getAttr meta.attrsOf "content" with
      | none =>
        dsimp only
        by_cases hu : url = ""
        · rw [if_pos hu, hu]
        · rw [if_neg hu]
      | some c =>
        dsimp only
        by_cases hc : c = ""
        · rw [if_pos hc, hc]
          have ht : strTrim "" = "" := rfl
          rw [ht, if_pos rfl]
          by_cases hu : url = ""
          · rw [if_pos hu, hu]
          · rw [if_neg hu]
        · rw [if_neg hc]

/-- C4 (amended): when `extract_article_text` yields an Article, its title
is resolved as: the first `<h1>`'s text when an `<h1>` exists, with the
URL substituted when that text is empty (the `og:title` is NOT consulted
in that case); otherwise the stripped `og:title` content when non-empty;
otherwise the page URL.  In particular a document with no `<h1>` and no
`og:title` yields an Article whose title equals its URL. -/
theorem c4_title_resolution : ∀ (url : String) (doc : Soup) (a : Article),
    extract_article_text url doc = some a →
    a.title = titleSpec url doc ∧
    (findFirst (fun tag _ => tag = "h1") doc = none → findOgTitle doc = none →
      a.title = url) := by
  intro url doc a h
  unfold extract_article_text at h
  by_cases hb : strTrim (scanSelectors doc ([], "") candidate_selectors).2 = ""
  · rw [if_pos hb] at h
    cases h
  · rw [if_neg hb] at h
    have ht : a.title = if resolveTitle url doc = "" then url else resolveTitle url doc := by
      cases h
      rfl
    constructor
    · rw [ht, resolveTitle_or_url]
    · intro h1 hog
      rw [ht, resolveTitle_or_url]
      unfold titleSpec
      rw [h1, hog]

/-- The parsed page served by `envArt` (no `<h1>`, no `og:title`). -/
def docArt : Soup := HForest.ofList
  [.elem "article" [] (HForest.ofList [.elem "p" [] (HForest.ofList [.text "body"])])]

/-- Witness for C4: the concrete no-h1/no-og:title page yields an Article
titled by its URL. -/
theorem c4_witness : artA.title = "https://thefalse9.com/a" :=
  (c4_title_resolution "https://thefalse9.com/a" docArt artA (by rfl)).2 (by rfl) (by rfl)

/-- A page whose first `<h1>` is empty and which carries a non-empty
`og:title` ("Foo"), plus an `entry-content` body. -/
def docC4 : Soup := HForest.ofList
  [ .elem "h1" [] HForest.nil,
    .elem "meta" [("property", "og:title"), ("content", "Foo")] HForest.nil,
    .elem "div" [("class", "entry-content")] (HForest.ofList [.elem "p" [] (HForest.ofList [.text "hi"])]) ]

/-- Counterexample to claim C4 as stated: a document whose `<h1>` exists
but has empty text and which carries the non-empty `og:title` "Foo"
yields the URL as title — not "Foo", the first non-empty candidate in
the claimed order h1 → og:title → URL. -/
theorem c4_counterexample :
    (extract_article_text "https://thefalse9.com/t" docC4).map Article.title =
      some "https://thefalse9.com/t" ∧
    getAttr (HNode.elem "meta" [("property", "og:title"), ("content", "Foo")] HForest.nil).attrsOf
      "content" = some "Foo" ∧
    ("https://thefalse9.com/t" : String) ≠ "Foo" :=
  ⟨by rfl, by rfl, by decide⟩

/-- C5 (amended): a container reached via the generic `article` selector
is rejected as a body candidate if and only if it has a non-empty class
list none of whose classes contains one of the keywords
`entry`/`post`/`article` (so a class-less `<article>` is NOT rejected —
see the counterexample); containers reached via the `[class*='…']`
selectors are never rejected this way. -/
theorem c5_generic_rejection :
    (∀ (pat : String) (node : HNode), rejectGeneric (Sel.clsContains pat) node = false) ∧
    (∀ node : HNode, rejectGeneric Sel.tagArticle node = true ↔
      (normalize_classes (nodeClass node) ≠ [] ∧
        ∀ cls ∈ normalize_classes (nodeClass node), ∀ kw ∈ keywords,
          strContains cls kw = false)) := by
  constructor
  · intro pat node
    rfl
  · intro node
    simp only [rejectGeneric, Bool.and_eq_true, Bool.not_eq_true', List.any_eq_false,
      ne_eq, Bool.not_eq_true, List.isEmpty_eq_false]

/-- Witness for C5: a concrete generic article container with classes
`sidebar widget` is rejected. -/
theorem c5_witness :
    rejectGeneric Sel.tagArticle
      (HNode.elem "article" [("class", "sidebar widget")] HForest.nil) = true :=
  ((c5_generic_rejection.2 _).mpr ⟨by decide, by decide⟩)

/-- A lone class-less generic `<article>` container with one paragraph. -/
def docC5 : Soup :=
  HForest.cons
    (HNode.elem "article" [] (HForest.ofList [.elem "p" [] (HForest.ofList [.text "hello"])]))
    HForest.nil

/-- Counterexample to claim C5 as stated: a class-less generic
`<article>` container is accepted as body candidate (its paragraph text
is extracted), although its class attributes contain no content keyword. -/
theorem c5_counterexample :
    normalize_classes (nodeClass
      (HNode.elem "article" [] (HForest.ofList [.elem "p" [] (HForest.ofList [.text "hello"])]))) = [] ∧
    extract_article_text "https://thefalse9.com/p" docC5 =
      some ⟨"https://thefalse9.com/p", "https://thefalse9.com/p", "hello"⟩ :=
  ⟨by rfl, by rfl⟩
/-- Validation predicate of `load_index` (claim C6): the stored embedding
is present as a non-empty list. -/
def rawValid (r : RawRecord) : Bool :=
  match r.embedding with
  | some emb => !emb.isEmpty
  | none => false

/-- The loaded norm as amended claim C6 states it: taken from storage
when present and non-zero, recomputed from the embedding otherwise. -/
def specNorm (sq : ℚ → ℚ) (emb : List ℚ) (stored : Option ℚ) : ℚ :=
  match stored with
  | some n => if n ≠ 0 then n else sq (sumSq emb)
  | none => sq (sumSq emb)

theorem loadRecord_invalid (sq : ℚ → ℚ) (item : RawRecord)
    (h : rawValid item = false) : loadRecord sq item = none := by
  unfold rawValid at h
  unfold loadRecord
  cases hemb : item.embedding with
  | none => rfl
  | some emb =>
    rw [hemb] at h
    dsimp only at h ⊢
    cases hbe : emb.isEmpty with
    | true => rfl
    | false => rw [hbe] at h; simp at h

theorem loadRecord_valid (sq : ℚ → ℚ) (item : RawRecord)
    (h : rawValid item = true) : loadRecord sq item =
      some { title := item.title.getD ""
             url := item.url.getD ""
             text := item.text.getD ""
             embedding := item.embedding.getD []
             norm := specNorm sq (item.embedding.getD []) item.norm } := by
  unfold rawValid at h
  unfold loadRecord
  cases hemb : item.embedding with
  | none => rw [hemb] at h; cases h
  | some emb =>
    rw [hemb] at h
    dsimp only
    simp only [Bool.not_eq_true'] at h
    rw [if_neg (by rw [h]; exact Bool.false_ne_true)]
    simp only [Option.getD_some]
    cases hn : item.norm with
    | none => rfl
    | some n =>
      by_cases hz : n = 0
      · subst hz
        simp [specNorm]
      · simp [specNorm, hz]

/-- C6 (amended): `load_index` equals the spec-side filter-and-normalise
pipeline: every record whose embedding is missing or empty is silently
dropped (a malformed record is never fatal — all remaining valid records
are still returned, in order), and each kept record's norm is taken from
storage when present AND non-zero, and recomputed from the embedding
otherwise (a stored norm of `0` is falsy in `item.get("norm") or …` and
is recomputed, contrary to the claim's "taken from storage when
present" — see the counterexample). -/
theorem c6_load_validation : ∀ (sq : ℚ → ℚ) (data : List RawRecord),
    load_index sq data =
      (data.filter (fun r => rawValid r)).map (fun r =>
        { title := r.title.getD ""
          url := r.url.getD ""
          text := r.text.getD ""
          embedding := r.embedding.getD []
          norm := specNorm sq (r.embedding.getD []) r.norm }) := by
  intro sq data
  induction data with
  | nil => rfl
  | cons item rest ih =>
    unfold load_index at ih ⊢
    rw [List.filter_cons]
    cases hv : rawValid item with
    | false =>
      rw [List.filterMap_cons_none (loadRecord_invalid sq item hv), ih]
      simp only [Bool.false_eq_true, if_false]
    | true =>
      rw [List.filterMap_cons_some (loadRecord_valid sq item hv), ih]
      simp

/-- Counterexample to claim C6 as stated: a record stored with norm `0`
and embedding `[3,4]` loads with the recomputed norm `5`, not the stored
(present) value `0`. -/
theorem c6_counterexample :
    RawRecord.norm ⟨some "t", some "u", some "x", some [3, 4], some 0⟩ = some 0 ∧
    load_index ratSqrt [⟨some "t", some "u", some "x", some [3, 4], some 0⟩] =
      [⟨"t", "u", "x", [3, 4], 5⟩] ∧
    (5 : ℚ) ≠ 0 := by
  refine ⟨rfl, ?_, by norm_num⟩
  have h25 : ratSqrt 25 = 5 := by decide
  norm_num +decide [load_index, loadRecord, sumSq, h25, List.filterMap_cons]

/-- C7: if the index file is missing or the loaded index is empty,
`search_context` returns the empty list, for EVERY embedding function —
the quantification over `embed` after the emptiness hypothesis is the
formal statement that the embedding service is never consulted on this
path. -/
theorem c7_empty_graceful : ∀ (sq : ℚ → ℚ) (file : Option (List RawRecord))
    (query : String) (k : Nat),
    load_index_file sq file = [] →
    ∀ embed : String → List ℚ, search_context sq embed file query k = [] := by
  intro sq file query k h embed
  unfold search_context
  rw [h]
  rfl

/-- Witness for C7: a search against a missing index file returns `[]`
under an arbitrary embedding function. -/
theorem c7_witness :
    search_context ratSqrt (fun s => [(s.length : ℚ)]) none "query" 5 = [] :=
  c7_empty_graceful ratSqrt none "query" 5 rfl (fun s => [(s.length : ℚ)])

theorem sumSq_replicate_zero (n : Nat) : sumSq (List.replicate n 0) = 0 := by
  induction n with
  | zero => rfl
  | succ m ih =>
    rw [List.replicate_succ]
    unfold sumSq at ih ⊢
    rw [List.map_cons, List.sum_cons, ih]
    norm_num

/-- C8: for any square-root model with `sq 0 = 0` (true of `math.sqrt`),
`_cosine_similarity` returns `0.0` through its guard branch (no division
performed) whenever either the query's norm or the record's norm is
exactly zero; hence a record with an all-zero embedding — whose stored
norm is `sq 0 = 0` — scores `0` against every query. -/
theorem c8_zero_norm : ∀ (sq : ℚ → ℚ) (a b : List ℚ) (norm_b : ℚ),
    sq 0 = 0 →
    ((sq (sumSq a) = 0 ∨ norm_b = 0) → cosine_similarity sq a b norm_b = 0) ∧
    (∀ n : Nat,
      cosine_similarity sq a (List.replicate n 0) (sq (sumSq (List.replicate n 0))) = 0) := by
  intro sq a b norm_b h0
  constructor
  · intro h
    unfold cosine_similarity
    rw [if_pos h]
  · intro n
    unfold cosine_similarity
    rw [sumSq_replicate_zero, h0]
    rw [if_pos (Or.inr rfl)]

/-- Witness for C8: a concrete all-zero record scores `0`. -/
theorem c8_witness :
    cosine_similarity ratSqrt [1, 2] (List.replicate 2 0)
      (ratSqrt (sumSq (List.replicate 2 0))) = 0 :=
  (c8_zero_norm ratSqrt [1, 2] [7] 3 (by decide)).2 2
theorem ratSqrt_one : ratSqrt 1 = 1 := by decide

theorem cosine_unit_A : cosine_similarity ratSqrt [1, 0] [1, 0] 1 = 1 := by
  norm_num [cosine_similarity, sumSq, dotProd, ratSqrt_one]

theorem cosine_unit_B : cosine_similarity ratSqrt [1, 0] [0, 1] 1 = 0 := by
  norm_num [cosine_similarity, sumSq, dotProd, ratSqrt_one]

/-- C3: for an index of exactly two records with embeddings `[1,0]`
(record A, stored norm 1) and `[0,1]` (record B, stored norm 1) and a
query whose embedding is `[1,0]`, `search_context` (whose stable
descending sort orders results by score descending) returns A's
projection before B's, and the cosine score computed for A is `1` and
for B is `0`. -/
theorem c3_cosine_ranking : ∀ (tA uA xA tB uB xB q : String)
    (embed : String → List ℚ) (k : Nat),
    embed q = [1, 0] → 2 ≤ k →
    search_context ratSqrt embed
      (some [⟨some tA, some uA, some xA, some [1, 0], some 1⟩,
             ⟨some tB, some uB, some xB, some [0, 1], some 1⟩]) q k =
      [⟨tA, uA, xA⟩, ⟨tB, uB, xB⟩] ∧
    cosine_similarity ratSqrt [1, 0] [1, 0] 1 = 1 ∧
    cosine_similarity ratSqrt [1, 0] [0, 1] 1 = 0 := by
  intro tA uA xA tB uB xB q embed k hq hk
  refine ⟨?_, cosine_unit_A, cosine_unit_B⟩
  have hload : load_index_file ratSqrt
      (some [⟨some tA, some uA, some xA, some [1, 0], some 1⟩,
             ⟨some tB, some uB, some xB, some [0, 1], some 1⟩]) =
      [⟨tA, uA, xA, [1, 0], 1⟩, ⟨tB, uB, xB, [0, 1], 1⟩] := by
    norm_num +decide [load_index_file, load_index, loadRecord, List.filterMap_cons]
  simp only [search_context]
  rw [hload, hq]
  simp only [List.isEmpty_cons, Bool.false_eq_true, if_false, List.map_cons, List.map_nil]
  rw [cosine_unit_A, cosine_unit_B]
  simp only [List.insertionSort, List.orderedInsert]
  rw [if_pos (by norm_num : ((0:ℚ), (⟨tB, uB, xB, [0, 1], 1⟩ : IndexRecord)).1 ≤ ((1:ℚ), (⟨tA, uA, xA, [1, 0], 1⟩ : IndexRecord)).1)]
  rw [List.take_of_length_le (by simpa using hk)]
  rfl

/-- Witness for C3: the fully concrete two-record search. -/
theorem c3_witness :
    search_context ratSqrt (fun _ => [1, 0])
      (some [⟨some "A", some "uA", some "xA", some [1, 0], some 1⟩,
             ⟨some "B", some "uB", some "xB", some [0, 1], some 1⟩]) "q" 2 =
      [⟨"A", "uA", "xA"⟩, ⟨"B", "uB", "xB"⟩] :=
  (c3_cosine_ranking "A" "uA" "xA" "B" "uB" "xB" "q" (fun _ => [1, 0]) 2 rfl
    (le_refl 2)).1
theorem buildNew_skip (sq : ℚ → ℚ) (embed : String → List ℚ) :
    ∀ (corpus : List CorpusItem) (ex : List String),
    (∀ a ∈ corpus, a.text = "" ∨ (a.url ≠ "" ∧ a.url ∈ ex)) →
    buildNew sq embed corpus ex = [] := by
  intro corpus
  induction corpus with
  | nil => intro ex _; rfl
  | cons a rest ih =>
    intro ex h
    have ha := h a (List.mem_cons_self _ _)
    have hrest := fun x hx => h x (List.mem_cons_of_mem _ hx)
    rw [buildNew]
    by_cases ht : a.text = ""
    · rw [if_pos ht]
      exact ih ex hrest
    · rw [if_neg ht]
      rcases ha with ht' | hu
      · exact absurd ht' ht
      · rw [if_pos hu]
        exact ih ex hrest

theorem buildNew_urls (sq : ℚ → ℚ) (embed : String → List ℚ) :
    ∀ (corpus : List CorpusItem) (ex : List String),
    (∀ a ∈ corpus, a.text ≠ "" ∧ a.url ≠ "") →
    ((buildNew sq embed corpus ex).filterMap (fun r => r.url)).Nodup ∧
    ∀ u, (u ∈ (buildNew sq embed corpus ex).filterMap (fun r => r.url) ↔
      (u ∈ corpus.map (fun a => a.url) ∧ u ∉ ex)) := by
  intro corpus
  induction corpus with
  | nil =>
    intro ex _
    constructor
    · simp [buildNew]
    · intro u
      simp [buildNew]
  | cons a rest ih =>
    intro ex h
    have ha := h a (List.mem_cons_self _ _)
    have hrest := fun x hx => h x (List.mem_cons_of_mem _ hx)
    rw [buildNew, if_neg ha.1]
    by_cases hmem : a.url ∈ ex
    · rw [if_pos ⟨ha.2, hmem⟩]
      obtain ⟨hnd, hm⟩ := ih ex hrest
      refine ⟨hnd, fun u => ?_⟩
      rw [hm u]
      simp only [List.map_cons, List.mem_cons]
      constructor
      · rintro ⟨hu, hnex⟩
        exact ⟨Or.inr hu, hnex⟩
      · rintro ⟨hu | hu, hnex⟩
        · exact absurd (hu ▸ hmem) hnex
        · exact ⟨hu, hnex⟩
    · rw [if_neg (fun hc => hmem hc.2), if_pos ha.2]
      obtain ⟨hnd, hm⟩ := ih (a.url :: ex) hrest
      rw [List.filterMap_cons_some (rfl :
        (fun (r : RawRecord) => r.url)
          { title := some a.title, url := some a.url, text := some a.text,
            embedding := some (embed a.text),
            norm := some (sq (sumSq (embed a.text))) } = some a.url)]
      constructor
      · rw [List.nodup_cons]
        refine ⟨fun hmem' => ?_, hnd⟩
        exact ((hm a.url).mp hmem').2 (List.mem_cons_self _ _)
      · intro u
        rw [List.mem_cons, hm u]
        simp only [List.map_cons, List.mem_cons]
        constructor
        · rintro (rfl | ⟨hu, hnex⟩)
          · exact ⟨Or.inl rfl, hmem⟩
          · exact ⟨Or.inr hu, fun hx => hnex (Or.inr hx)⟩
        · rintro ⟨hu' | hu', hnex⟩
          · exact Or.inl hu'
          · by_cases hcase : u = a.url
            · exact Or.inl hcase
            · refine Or.inr ⟨hu', ?_⟩
              intro hx
              rcases hx with h1 | h1
              · exact hcase h1
              · exact hnex h1

theorem build_stable (sq : ℚ → ℚ) (embed : String → List ℚ)
    (corpus : List CorpusItem) (file : Option (List RawRecord))
    (h : ∀ a ∈ corpus, a.text = "" ∨ (a.url ≠ "" ∧ a.url ∈ truthyUrls (file.getD []))) :
    build_index_from_corpus sq embed corpus file = file := by
  simp only [build_index_from_corpus]
  rw [buildNew_skip sq embed corpus _ h]
  rfl

theorem build_none_getD (sq : ℚ → ℚ) (embed : String → List ℚ) (corpus : List CorpusItem) :
    (build_index_from_corpus sq embed corpus none).getD [] = buildNew sq embed corpus [] := by
  simp only [build_index_from_corpus, Option.getD_none]
  rw [show truthyUrls [] = [] from rfl]
  cases hnew : buildNew sq embed corpus [] with
  | nil => simp [hnew]
  | cons r rs => simp

/-- C2: starting from no index file, running `build_index_from_corpus`
any number `n ≥ 1` of times on the same corpus (every article having a
non-empty URL and non-empty text) produces the same index file as a
single run — so a URL already present in the index is never re-embedded
(runs after the first leave the file untouched, whatever the embedding
function returns) and never duplicated — and that file contains exactly
the set of URLs of the corpus, each URL exactly once. -/
theorem c2_idempotent_indexing : ∀ (sq : ℚ → ℚ) (embed : String → List ℚ)
    (corpus : List CorpusItem),
    (∀ a ∈ corpus, a.url ≠ "" ∧ a.text ≠ "") →
    ∀ n : Nat, 1 ≤ n →
    (build_index_from_corpus sq embed corpus)^[n] none =
      build_index_from_corpus sq embed corpus none ∧
    ((((build_index_from_corpus sq embed corpus)^[n] none).getD []).filterMap
        (fun r => r.url)).Nodup ∧
    ∀ u, (u ∈ (((build_index_from_corpus sq embed corpus)^[n] none).getD []).filterMap
        (fun r => r.url) ↔ u ∈ corpus.map (fun a => a.url)) := by
  intro sq embed corpus hc n hn
  have hc' : ∀ a ∈ corpus, a.text ≠ "" ∧ a.url ≠ "" :=
    fun a ha => ⟨(hc a ha).2, (hc a ha).1⟩
  obtain ⟨hnd, hm⟩ := buildNew_urls sq embed corpus [] hc'
  have hstab : build_index_from_corpus sq embed corpus
      (build_index_from_corpus sq embed corpus none) =
      build_index_from_corpus sq embed corpus none := by
    apply build_stable
    intro a ha
    right
    refine ⟨(hc a ha).1, ?_⟩
    rw [build_none_getD]
    unfold truthyUrls
    apply List.mem_filter.mpr
    refine ⟨?_, by simp [(hc a ha).1]⟩
    exact (hm a.url).mpr ⟨List.mem_map.mpr ⟨a, ha, rfl⟩, List.not_mem_nil _⟩
  have hiter : ∀ m, 1 ≤ m → (build_index_from_corpus sq embed corpus)^[m] none =
      build_index_from_corpus sq embed corpus none := by
    intro m
    induction m with
    | zero => intro h; omega
    | succ k ihk =>
      intro _
      rw [Function.iterate_succ_apply']
      by_cases hk : 1 ≤ k
      · rw [ihk hk, hstab]
      · have hk0 : k = 0 := by omega
        subst hk0
        rw [Function.iterate_zero_apply]
  rw [hiter n hn, build_none_getD]
  refine ⟨rfl, hnd, fun u => ?_⟩
  rw [hm u]
  simp

/-- Witness for C2: a concrete one-article corpus built twice. -/
theorem c2_witness :
    (build_index_from_corpus ratSqrt (fun _ => [1]) [⟨"t", "https://thefalse9.com/a", "x"⟩])^[2]
        none =
      build_index_from_corpus ratSqrt (fun _ => [1]) [⟨"t", "https://thefalse9.com/a", "x"⟩] none ∧
    ((((build_index_from_corpus ratSqrt (fun _ => [1])
        [⟨"t", "https://thefalse9.com/a", "x"⟩])^[2] none).getD []).filterMap
        (fun r => r.url)).Nodup ∧
    ∀ u, (u ∈ (((build_index_from_corpus ratSqrt (fun _ => [1])
        [⟨"t", "https://thefalse9.com/a", "x"⟩])^[2] none).getD []).filterMap
        (fun r => r.url) ↔
      u ∈ ([⟨"t", "https://thefalse9.com/a", "x"⟩] : List CorpusItem).map (fun a => a.url)) :=
  c2_idempotent_indexing ratSqrt (fun _ => [1]) [⟨"t", "https://thefalse9.com/a", "x"⟩]
    (by intro a ha; rw [List.mem_singleton] at ha; subst ha; exact ⟨by decide, by decide⟩)
    2 (by norm_num)
